import Mathlib

/-
  Verification development for the minhook-rs library.

  The definitions below are shallow embeddings of the Rust sources:
    - src/src/ffi.rs    (MH_STATUS and the native call surface)
    - src/src/error.rs  (Error and Error::from_status)
    - src/src/lib.rs    (s2r, HookQueue, StaticHook initialization)
    - src/src/cell.rs   (StaticInitCell)
    - src/src/sync.rs   (AtomicInitCell)
    - src/src/function.rs (FnPointer, Function, HookableWith)
    - src/src/panic.rs and src/src/macros.rs (panic boundary)

  The native MinHook engine itself is an external C library; where its
  behaviour is needed it is modelled from the specification and from the
  doc comments on the ffi declarations, and marked as such.
-/

namespace Minhook

/- ===================== Status codes and errors ===================== -/

/-- Embeds the MH_STATUS enum from src/src/ffi.rs. -/
inductive MH_STATUS where
  | MH_UNKNOWN
  | MH_OK
  | MH_ERROR_ALREADY_INITIALIZED
  | MH_ERROR_NOT_INITIALIZED
  | MH_ERROR_ALREADY_CREATED
  | MH_ERROR_NOT_CREATED
  | MH_ERROR_ENABLED
  | MH_ERROR_DISABLED
  | MH_ERROR_NOT_EXECUTABLE
  | MH_ERROR_UNSUPPORTED_FUNCTION
  | MH_ERROR_MEMORY_ALLOC
  | MH_ERROR_MEMORY_PROTECT
  | MH_ERROR_MODULE_NOT_FOUND
  | MH_ERROR_FUNCTION_NOT_FOUND
deriving DecidableEq, Fintype

/-- Embeds the Error enum from src/src/error.rs (engine statuses plus the two
library-added name-validation kinds). -/
inductive Error where
  | AlreadyInitialized
  | NotInitialized
  | AlreadyCreated
  | NotCreated
  | AlreadyEnabled
  | Disabled
  | NotExecutable
  | UnsupportedFunction
  | MemoryAlloc
  | MemoryProtect
  | ModuleNotFound
  | FunctionNotFound
  | InvalidModuleName
  | InvalidFunctionName
deriving DecidableEq

/-- Result of running the status translation: the MH_UNKNOWN arm of the Rust
match executes an unreachable diagnostic (a process panic), every other arm
returns an optional error. -/
inductive StatusConv where
  | hitUnreachable
  | ret (e : Option Error)
deriving DecidableEq

/-- Embeds Error::from (called Error::from_status at its use site in
src/src/lib.rs): the match in src/src/error.rs lines 45-62. -/
def Error.from_status : MH_STATUS → StatusConv
  | .MH_OK => .ret none
  | .MH_ERROR_ALREADY_INITIALIZED => .ret (some .AlreadyInitialized)
  | .MH_ERROR_NOT_INITIALIZED => .ret (some .NotInitialized)
  | .MH_ERROR_ALREADY_CREATED => .ret (some .AlreadyCreated)
  | .MH_ERROR_NOT_CREATED => .ret (some .NotCreated)
  | .MH_ERROR_ENABLED => .ret (some .AlreadyEnabled)
  | .MH_ERROR_DISABLED => .ret (some .Disabled)
  | .MH_ERROR_NOT_EXECUTABLE => .ret (some .NotExecutable)
  | .MH_ERROR_UNSUPPORTED_FUNCTION => .ret (some .UnsupportedFunction)
  | .MH_ERROR_MEMORY_ALLOC => .ret (some .MemoryAlloc)
  | .MH_ERROR_MEMORY_PROTECT => .ret (some .MemoryProtect)
  | .MH_ERROR_MODULE_NOT_FOUND => .ret (some .ModuleNotFound)
  | .MH_ERROR_FUNCTION_NOT_FOUND => .ret (some .FunctionNotFound)
  | .MH_UNKNOWN => .hitUnreachable

/-- Embeds s2r from src/src/lib.rs lines 388-390: maps a status to a
Result, with none standing for the propagated unreachable panic. -/
def s2r (status : MH_STATUS) : Option (Except Error Unit) :=
  match Error.from_status status with
  | .hitUnreachable => none
  | .ret none => some (.ok ())
  | .ret (some e) => some (.error e)

/- ===================== Function signatures (function.rs) ===================== -/

/-- The seven calling conventions enumerated by impl_hookable in
src/src/function.rs lines 86-94. -/
inductive CallConv where
  | rustCall
  | cdecl
  | stdcall
  | fastcall
  | win64
  | cCall
  | system
deriving DecidableEq

/-- A function signature shape as far as the trait machinery distinguishes it:
a calling convention, an arity, and whether the type is the unsafe form. -/
structure FnSig where
  conv : CallConv
  arity : Nat
  isUnsafe : Bool
deriving DecidableEq

/-- Arities covered by the default impl_hookable invocation
(src/src/function.rs lines 178-182: twelve argument slots, arities 0..12). -/
def FnSig.supported (t : FnSig) : Prop := t.arity ≤ 12

instance (t : FnSig) : Decidable t.supported :=
  inferInstanceAs (Decidable (t.arity ≤ 12))

/-- The associated Unsafe type of the Function impls: the same signature with
the unsafe marker set (impl_core generates Unsafe = the unsafe type for both
the safe and the unsafe form). -/
def FnSig.markUnsafe (t : FnSig) : FnSig := { t with isUnsafe := true }

/-- Embeds the HookableWith impls of src/src/function.rs: the blanket
reflexive impl on line 73, plus the impl generated per signature on
lines 104 and 110-112, which reads HookableWith of the safe detour type
for the unsafe target type. -/
def hookableWith (target detour : FnSig) : Prop :=
  target = detour ∨ (detour.isUnsafe = false ∧ target = detour.markUnsafe)

instance (target detour : FnSig) : Decidable (hookableWith target detour) :=
  inferInstanceAs (Decidable (_ ∨ _))

/- ===================== Engine state and the hook queue ===================== -/

/-- Modelled from the spec: the native engine's global hook table, keyed by
raw target address. Missing from src: the MinHook C library. The spec says
the engine tracks enabled state per address; the ffi doc comments say the
queue calls record a desired state per hook and MH_ApplyQueued applies all
queued changes in one go. -/
structure Engine where
  enabled : Nat → Bool
  pending : Nat → Option Bool

/-- Modelled from the spec: MH_QueueEnableHook and MH_QueueDisableHook record
the desired state for one target address (last record for an address wins
because the engine keys by address, not by entry). -/
def queueMark (e : Engine) (addr : Nat) (v : Bool) : Engine :=
  { e with pending := fun x => if x = addr then some v else e.pending x }

/-- Modelled from the spec: MH_ApplyQueued commits every queued change in one
go and clears the queued state. -/
def applyQueued (e : Engine) : Engine :=
  { enabled := fun a => (e.pending a).getD (e.enabled a),
    pending := fun _ => none }

/-- The entry list held by a HookQueue (src/src/lib.rs line 60): pairs of a
target address and the desired enabled state. -/
def markAll (q : List (Nat × Bool)) (e : Engine) : Engine :=
  q.foldl (fun acc p => queueMark acc p.1 p.2) e

/-- Embeds the success path of HookQueue::apply (src/src/lib.rs lines 81-96):
one queue call per entry in order, then one apply-all call. -/
def hookQueueApply (q : List (Nat × Bool)) (e : Engine) : Engine :=
  applyQueued (markAll q e)

/-- The last queued state for a given address, later entries taking
precedence. -/
def lastWrite : List (Nat × Bool) → Nat → Option Bool
  | [], _ => none
  | p :: rest, a =>
    match lastWrite rest a with
    | some v => some v
    | none => if p.1 = a then some p.2 else none

/-- The enabled map after committing a whole batch of queued entries at once. -/
def batchApply (q : List (Nat × Bool)) (en : Nat → Bool) : Nat → Bool :=
  fun a => (lastWrite q a).getD (en a)

/-- A concrete all-disabled engine with an empty queue. -/
def engineZero : Engine :=
  { enabled := fun _ => false, pending := fun _ => none }

/- ===================== Static initializer cells ===================== -/

/-- Embeds the cell::Error enum of src/src/cell.rs lines 4-8. -/
inductive CellError where
  | AlreadyInitialized
  | AccessedBeforeInitialization
deriving DecidableEq

/-- State of a StaticInitCell (src/src/cell.rs lines 10-14): the stored data
and whether the Once has completed. -/
structure CellState (α : Type) where
  data : Option α
  onceDone : Bool
deriving DecidableEq

/-- A fresh StaticInitCell as produced by StaticInitCell::new. -/
def cellNew (α : Type) : CellState α := ⟨none, false⟩

/-- Embeds StaticInitCell::initialize (src/src/cell.rs lines 34-50): the Once
closure stores the value only on the first completed call; afterwards the
call reports AlreadyInitialized when a value is stored and
AccessedBeforeInitialization when the Once was consumed by a bare get.
The returned option is the error, none meaning Ok. -/
def cellInitialize {α : Type} (s : CellState α) (v : α) : CellState α × Option CellError :=
  if s.onceDone then
    match s.data with
    | some _ => (s, some .AlreadyInitialized)
    | none => (s, some .AccessedBeforeInitialization)
  else
    (⟨some v, true⟩, none)

/-- Embeds StaticInitCell::get (src/src/cell.rs lines 52-57): runs the Once
with an empty closure, then returns the stored reference or
AccessedBeforeInitialization (encoded as none). -/
def cellGet {α : Type} (s : CellState α) : CellState α × Option α :=
  (⟨s.data, true⟩, s.data)

/-- An operation performed on an initializer cell. -/
inductive CellOp (α : Type) where
  | initOp (v : α)
  | getOp
deriving DecidableEq

/-- Observable result of one cell operation. -/
inductive CellResult (α : Type) where
  | initOk
  | initErr (e : CellError)
  | getOk (v : α)
  | getErr (e : CellError)
deriving DecidableEq

/-- One StaticInitCell operation as a step on the cell state. -/
def cellStep {α : Type} (s : CellState α) : CellOp α → CellState α × CellResult α
  | .initOp v =>
    match cellInitialize s v with
    | (s', none) => (s', .initOk)
    | (s', some e) => (s', .initErr e)
  | .getOp =>
    match cellGet s with
    | (s', some v) => (s', .getOk v)
    | (s', none) => (s', .getErr .AccessedBeforeInitialization)

/-- Runs a sequence of StaticInitCell operations, collecting the results. -/
def cellRun {α : Type} (s : CellState α) : List (CellOp α) → CellState α × List (CellResult α)
  | [] => (s, [])
  | op :: ops =>
    let st := cellStep s op
    let rest := cellRun st.1 ops
    (rest.1, st.2 :: rest.2)

/-- Observable result of one AtomicInitCell operation (src/src/sync.rs):
initialize returns Result with a unit error, get returns an option. -/
inductive AtomicResult (α : Type) where
  | initOk
  | initErr
  | got (r : Option α)
deriving DecidableEq

/-- Embeds AtomicInitCell (src/src/sync.rs lines 8-39) as a step on its
state, the published pointer: initialize is the compare-and-swap from null
on lines 18-29, get is the load on lines 32-38. -/
def atomicStep {α : Type} (s : Option α) : CellOp α → Option α × AtomicResult α
  | .initOp v =>
    match s with
    | none => (some v, .initOk)
    | some w => (some w, .initErr)
  | .getOp => (s, .got s)

/-- Runs a sequence of AtomicInitCell operations, collecting the results. -/
def atomicRun {α : Type} (s : Option α) : List (CellOp α) → Option α × List (AtomicResult α)
  | [] => (s, [])
  | op :: ops =>
    let st := atomicStep s op
    let rest := atomicRun st.1 ops
    (rest.1, st.2 :: rest.2)

/-- Expected per-operation results on a StaticInitCell that has published v:
reads return v, further writes fail with AlreadyInitialized. -/
def publishedResults {α : Type} (v : α) (ops : List (CellOp α)) : List (CellResult α) :=
  ops.map fun op =>
    match op with
    | .initOp _ => .initErr .AlreadyInitialized
    | .getOp => .getOk v

/-- Expected per-operation results on an AtomicInitCell that has published v. -/
def atomicPublishedResults {α : Type} (v : α) (ops : List (CellOp α)) : List (AtomicResult α) :=
  ops.map fun op =>
    match op with
    | .initOp _ => .initErr
    | .getOp => .got (some v)

/-- Expected per-operation results on a dead StaticInitCell (Once consumed
with no stored value): everything reports AccessedBeforeInitialization. -/
def deadResults {α : Type} (ops : List (CellOp α)) : List (CellResult α) :=
  ops.map fun op =>
    match op with
    | .initOp _ => .initErr .AccessedBeforeInitialization
    | .getOp => .getErr .AccessedBeforeInitialization

/- ===================== Static hook initialization ===================== -/

/-- State of a StaticHook (src/src/lib.rs lines 255-259) together with the
piece of engine state its initialization touches: the cell holding the inner
hook and whether the engine already has a hook for the target address. -/
structure StaticHookState (α : Type) where
  cell : CellState α
  engineCreated : Bool
deriving DecidableEq

/-- A static hook as declared, before any access: fresh cell, no engine
registration for its target. -/
def staticHookNew (α : Type) : StaticHookState α := ⟨cellNew α, false⟩

/-- Outcome of StaticHook::initialize: success, a returned error value, or a
process panic. -/
inductive InitializeOutcome where
  | ok
  | err (e : Error)
  | panicked
deriving DecidableEq

/-- Embeds StaticHook::initialize_ref (src/src/lib.rs lines 276-287), the
body behind initialize and StaticHookWithDefault::initialize. Hook::create
runs first: when the engine already has a hook for the target it fails with
MH_ERROR_ALREADY_CREATED (modelled from the ffi doc comments), propagated by
try! as Err(Error::AlreadyCreated). Otherwise the cell initialize runs and
its error is mapped on lines 283-286: AlreadyInitialized becomes the value
Err(Error::AlreadyCreated), AccessedBeforeInitialization becomes a panic. -/
def staticHookInitialize {α : Type} (inner : α) (s : StaticHookState α) :
    StaticHookState α × InitializeOutcome :=
  if s.engineCreated then
    (s, .err .AlreadyCreated)
  else
    let s1 : StaticHookState α := { s with engineCreated := true }
    match cellInitialize s1.cell inner with
    | (c', none) => ({ s1 with cell := c' }, .ok)
    | (c', some .AlreadyInitialized) => ({ s1 with cell := c' }, .err .AlreadyCreated)
    | (c', some .AccessedBeforeInitialization) => ({ s1 with cell := c' }, .panicked)

/- ===================== HookQueue::apply failure handling ===================== -/

/-- Outcome of one run of HookQueue::apply: a panic out of the per-entry
loop, or the result of the final MH_ApplyQueued call (none meaning Ok). -/
inductive ApplyOutcome where
  | panicked
  | result (r : Option Error)
deriving DecidableEq

/-- Embeds the loop of HookQueue::apply (src/src/lib.rs lines 87-95) with the
engine's per-call responses abstracted as an oracle: resp i entry is the
error, if any, returned by the queue-enable or queue-disable call issued for
the i-th entry. Each response goes through s2r(...).unwrap(), so any error
response panics on the spot; only when every issued call succeeds is the
final apply-all status returned. -/
def hookQueueApplyRun (resp : Nat → Nat × Bool → Option Error)
    (finalStatus : Option Error) : Nat → List (Nat × Bool) → ApplyOutcome
  | _, [] => .result finalStatus
  | i, entry :: rest =>
    match resp i entry with
    | some _ => .panicked
    | none => hookQueueApplyRun resp finalStatus (i + 1) rest

/- ===================== Panic boundary ===================== -/

/-- Embeds DetourPanicInfo (src/src/panic.rs lines 12-17): the panic payload
together with the full path of the hook whose detour panicked. -/
structure PanicInfo (P : Type) where
  payload : P
  detour : String
deriving DecidableEq

/-- Behaviour of a registered handler on one invocation: it either returns
normally or panics itself. -/
inductive HandlerBehavior where
  | returnsNormally
  | panicsItself
deriving DecidableEq

/-- Trace of one run of the panic-boundary handling routine: which handler
invocations happened and whether the process was aborted at the end. -/
structure HandleTrace (P : Type) where
  customCalls : List (PanicInfo P)
  defaultCalls : List (PanicInfo P)
  aborted : Bool
deriving DecidableEq

/-- Embeds panic::__handle (src/src/panic.rs lines 66-86): builds the info
from the module path, hook name and payload, invokes the registered handler
if there is one and the default handler otherwise, exactly once, inside a
recover block, and unconditionally aborts the process afterwards; the
function never returns (its Rust return type is never). -/
def handleDetourPanic {P : Type} (registered : Option (PanicInfo P → HandlerBehavior))
    (path name : String) (payload : P) : HandleTrace P :=
  let info : PanicInfo P := ⟨payload, path ++ "::" ++ name⟩
  match registered with
  | some h =>
    match h info with
    | .returnsNormally => ⟨[info], [], true⟩
    | .panicsItself => ⟨[info], [], true⟩
  | none => ⟨[], [info], true⟩

/-- Outcome of one invocation of a guarded detour: a normal return value, or
an abort carrying the panic-boundary trace. -/
inductive DetourOutcome (P R : Type) where
  | returned (r : R)
  | aborted (tr : HandleTrace P)

/-- Embeds the GUARD detour body generated by static_hooks!
(src/src/macros.rs lines 210-220): the closure runs inside recover; a normal
result is returned through the foreign boundary, a panic payload is handed
to panic::__handle. The closure is modelled as returning Except, error being
a panic with the given payload. -/
def guardedDetour {A P R : Type} (closure : A → Except P R)
    (registered : Option (PanicInfo P → HandlerBehavior))
    (path name : String) (args : A) : DetourOutcome P R :=
  match closure args with
  | .ok r => .returned r
  | .error payload => .aborted (handleDetourPanic registered path name payload)

/-- Concrete module path used by witnesses. -/
def witnessPath : String := "tests"

/-- Concrete hook name used by witnesses. -/
def witnessName : String := "h"

/- ===================== HookQueue as an object ===================== -/

/-- Embeds the HookQueue struct (src/src/lib.rs line 60): the ordered vector
of queued (target, desired-state) entries. -/
structure HookQueueObj where
  entries : List (Nat × Bool)
deriving DecidableEq

/-- Embeds HookQueue::new (src/src/lib.rs lines 64-66). -/
def hqNew : HookQueueObj := ⟨[]⟩

/-- Embeds HookQueue::enable (src/src/lib.rs lines 69-72): pushes the hook's
target with desired state true. -/
def hqEnable (q : HookQueueObj) (target : Nat) : HookQueueObj :=
  ⟨q.entries ++ [(target, true)]⟩

/-- Embeds HookQueue::disable (src/src/lib.rs lines 75-78): pushes the
hook's target with desired state false. -/
def hqDisable (q : HookQueueObj) (target : Nat) : HookQueueObj :=
  ⟨q.entries ++ [(target, false)]⟩

/-- Embeds the success path of HookQueue::apply as a method on the queue
object: the method borrows the entry vector, issues one queue call per entry
in order (the middle component lists the issued calls) and never reassigns
or clears the vector, so the returned queue is the receiver unchanged. -/
def hqApply (q : HookQueueObj) (e : Engine) :
    HookQueueObj × List (Nat × Bool) × Engine :=
  (q, q.entries, hookQueueApply q.entries e)

/- ===================== Interleaved queue application ===================== -/

/-- Position of one thread inside HookQueue::apply (src/src/lib.rs lines
81-96): not yet at the lock acquisition, holding the lock having issued the
first i queue calls, holding the lock after the apply-all call, or returned. -/
inductive Phase where
  | idle
  | marking (i : Nat)
  | releasing
  | finished
deriving DecidableEq

/-- Global state of several threads each running HookQueue::apply on its own
queue against the shared engine: per-thread phase, the holder of the
process-wide LOCK of src/src/lib.rs line 84, and the engine state. -/
structure SysState (n : Nat) where
  phase : Fin n → Phase
  lockOwner : Option (Fin n)
  engine : Engine

/-- Initial state: no thread has started, the lock is free, the engine has
the given enabled map and an empty queued set. -/
def initSys (n : Nat) (e0 : Nat → Bool) : SysState n :=
  { phase := fun _ => .idle,
    lockOwner := none,
    engine := { enabled := e0, pending := fun _ => none } }

/-- Small-step interleaving semantics of concurrent HookQueue::apply runs,
qs giving each thread's queue. Acquiring the lock succeeds only when free;
each queue call marks one entry in the engine (modelled from the spec, see
queueMark); the apply-all call commits every queued change in one engine
step (modelled from the spec, see applyQueued); the lock is released when
apply returns. -/
inductive SysStep {n : Nat} (qs : Fin n → List (Nat × Bool)) :
    SysState n → SysState n → Prop where
  | acquire (t : Fin n) (s : SysState n)
      (hidle : s.phase t = .idle) (hfree : s.lockOwner = none) :
      SysStep qs s { s with phase := Function.update s.phase t (.marking 0),
                            lockOwner := some t }
  | mark (t : Fin n) (s : SysState n) (i : Nat) (entry : Nat × Bool)
      (hph : s.phase t = .marking i) (hent : (qs t).get? i = some entry) :
      SysStep qs s { s with phase := Function.update s.phase t (.marking (i + 1)),
                            engine := queueMark s.engine entry.1 entry.2 }
  | commit (t : Fin n) (s : SysState n)
      (hph : s.phase t = .marking (qs t).length) :
      SysStep qs s { s with phase := Function.update s.phase t .releasing,
                            engine := applyQueued s.engine }
  | release (t : Fin n) (s : SysState n)
      (hph : s.phase t = .releasing) :
      SysStep qs s { s with phase := Function.update s.phase t .finished,
                            lockOwner := none }

/-- Reachability from a state through any interleaving of steps. -/
inductive Reach {n : Nat} (qs : Fin n → List (Nat × Bool)) :
    SysState n → SysState n → Prop where
  | refl (s : SysState n) : Reach qs s s
  | tail {s1 s2 s3 : SysState n} :
      Reach qs s1 s2 → SysStep qs s2 s3 → Reach qs s1 s3

/-- System invariant: only the lock holder is inside the locked region, and
the engine's queued set is exactly the marks of the lock holder's already
issued queue calls (empty when the lock is free or already committed). -/
structure SysInv {n : Nat} (qs : Fin n → List (Nat × Bool)) (s : SysState n) : Prop where
  marking_owner : ∀ t i, s.phase t = .marking i → s.lockOwner = some t
  releasing_owner : ∀ t, s.phase t = .releasing → s.lockOwner = some t
  pending_free : s.lockOwner = none → ∀ a, s.engine.pending a = none
  pending_marking : ∀ t i, s.phase t = .marking i →
    ∀ a, s.engine.pending a = lastWrite ((qs t).take i) a
  pending_releasing : ∀ t, s.phase t = .releasing → ∀ a, s.engine.pending a = none

/-- Queues used by the concurrency witness. -/
def qsW : Fin 1 → List (Nat × Bool) := fun _ => [(1, true)]

/-- Initial enabled map used by the concurrency witness. -/
def e0W : Nat → Bool := fun _ => false

/-- The single thread of the concurrency witness. -/
def t0W : Fin 1 := ⟨0, Nat.zero_lt_one⟩

end Minhook

namespace Minhook

/- ===================== Lemmas ===================== -/

theorem markAll_enabled (q : List (Nat × Bool)) (e : Engine) :
    (markAll q e).enabled = e.enabled := by
  induction q generalizing e with
  | nil => rfl
  | cons p rest ih =>
    show (markAll rest (queueMark e p.1 p.2)).enabled = e.enabled
    rw [ih]
    rfl

theorem markAll_pending (q : List (Nat × Bool)) (e : Engine) (a : Nat) :
    (markAll q e).pending a =
      match lastWrite q a with
      | some v => some v
      | none => e.pending a := by
  induction q generalizing e with
  | nil => rfl
  | cons p rest ih =>
    show (markAll rest (queueMark e p.1 p.2)).pending a = _
    rw [ih]
    by_cases h : p.1 = a
    · subst h
      simp only [lastWrite, queueMark, if_pos rfl]
      cases lastWrite rest p.1 <;> simp
    · have h' : ¬(a = p.1) := fun hc => h hc.symm
      simp only [lastWrite, queueMark, if_neg h, if_neg h']
      cases lastWrite rest a <;> simp

/-- Claim C1: for every HookQueue built from any sequence of enable and disable
entries, apply leaves each mentioned target in the state of its last queued
entry: the last write per target address wins. -/
theorem hookQueueApply_last_write_wins (q : List (Nat × Bool)) (e : Engine)
    (a : Nat) (v : Bool) (h : lastWrite q a = some v) :
    (hookQueueApply q e).enabled a = v := by
  show ((markAll q e).pending a).getD ((markAll q e).enabled a) = v
  rw [markAll_pending, h]
  rfl

/-- Witness for C1, at the spec's concrete queue: applying the queue
enable(h1), disable(h2), enable(h3), disable(h3) leaves h1 enabled,
h2 disabled and h3 disabled. -/
theorem hookQueueApply_last_write_wins_witness :
    (hookQueueApply [(1, true), (2, false), (3, true), (3, false)] engineZero).enabled 1 = true ∧
    (hookQueueApply [(1, true), (2, false), (3, true), (3, false)] engineZero).enabled 2 = false ∧
    (hookQueueApply [(1, true), (2, false), (3, true), (3, false)] engineZero).enabled 3 = false :=
  ⟨hookQueueApply_last_write_wins _ engineZero 1 true rfl,
   hookQueueApply_last_write_wins _ engineZero 2 false rfl,
   hookQueueApply_last_write_wins _ engineZero 3 false rfl⟩

/-- Claim C5: the translation from native status codes to the typed error is a
one-to-one mapping: MH_OK maps to success and each of the twelve error
statuses maps to exactly its corresponding Error kind; distinct statuses
never collide. -/
theorem s2r_translation_one_to_one :
    s2r .MH_OK = some (.ok ()) ∧
    s2r .MH_ERROR_ALREADY_INITIALIZED = some (.error .AlreadyInitialized) ∧
    s2r .MH_ERROR_NOT_INITIALIZED = some (.error .NotInitialized) ∧
    s2r .MH_ERROR_ALREADY_CREATED = some (.error .AlreadyCreated) ∧
    s2r .MH_ERROR_NOT_CREATED = some (.error .NotCreated) ∧
    s2r .MH_ERROR_ENABLED = some (.error .AlreadyEnabled) ∧
    s2r .MH_ERROR_DISABLED = some (.error .Disabled) ∧
    s2r .MH_ERROR_NOT_EXECUTABLE = some (.error .NotExecutable) ∧
    s2r .MH_ERROR_UNSUPPORTED_FUNCTION = some (.error .UnsupportedFunction) ∧
    s2r .MH_ERROR_MEMORY_ALLOC = some (.error .MemoryAlloc) ∧
    s2r .MH_ERROR_MEMORY_PROTECT = some (.error .MemoryProtect) ∧
    s2r .MH_ERROR_MODULE_NOT_FOUND = some (.error .ModuleNotFound) ∧
    s2r .MH_ERROR_FUNCTION_NOT_FOUND = some (.error .FunctionNotFound) ∧
    ∀ s1 s2 : MH_STATUS, Error.from_status s1 = Error.from_status s2 → s1 = s2 := by
  refine ⟨rfl, rfl, rfl, rfl, rfl, rfl, rfl, rfl, rfl, rfl, rfl, rfl, rfl, ?_⟩
  decide

/-- Witness for C5: the injectivity clause applied at a concrete pair. -/
theorem s2r_translation_one_to_one_witness :
    MH_STATUS.MH_ERROR_DISABLED = MH_STATUS.MH_ERROR_DISABLED :=
  (s2r_translation_one_to_one.2.2.2.2.2.2.2.2.2.2.2.2.2)
    .MH_ERROR_DISABLED .MH_ERROR_DISABLED rfl

/-- Counterexample for claim C3: a safe signature is not HookableWith its unsafe
variant used as the detour type; the generated impl goes the other way
around (unsafe target, safe detour). -/
theorem hookableWith_not_reflexive_into_marked :
    FnSig.supported ⟨CallConv.rustCall, 0, false⟩ ∧
    ¬ hookableWith ⟨CallConv.rustCall, 0, false⟩
        (FnSig.markUnsafe ⟨CallConv.rustCall, 0, false⟩) := by
  decide

/-- Claim C3 as amended: for every supported signature, HookableWith holds between
a target and itself; and the unsafe variant of a safe signature, used as the
target, is HookableWith the safe signature as the detour. -/
theorem hookableWith_reflexive_and_marked_target (t : FnSig) (_h : t.supported) :
    hookableWith t t ∧
    (t.isUnsafe = false → hookableWith t.markUnsafe t) := by
  constructor
  · exact Or.inl rfl
  · intro hsafe
    exact Or.inr ⟨hsafe, rfl⟩

/-- Witness for the amended C3 at a concrete safe unary cdecl signature. -/
theorem hookableWith_reflexive_and_marked_target_witness :
    hookableWith ⟨CallConv.cdecl, 1, false⟩ ⟨CallConv.cdecl, 1, false⟩ ∧
    ((⟨CallConv.cdecl, 1, false⟩ : FnSig).isUnsafe = false →
      hookableWith (FnSig.markUnsafe ⟨CallConv.cdecl, 1, false⟩) ⟨CallConv.cdecl, 1, false⟩) :=
  hookableWith_reflexive_and_marked_target ⟨CallConv.cdecl, 1, false⟩ (by decide)

theorem cellRun_published {α : Type} (v : α) (ops : List (CellOp α)) :
    cellRun (⟨some v, true⟩ : CellState α) ops = (⟨some v, true⟩, publishedResults v ops) := by
  induction ops with
  | nil => rfl
  | cons op ops ih =>
    cases op with
    | initOp w =>
      have hstep : cellRun (⟨some v, true⟩ : CellState α) (CellOp.initOp w :: ops) =
          ((cellRun (⟨some v, true⟩ : CellState α) ops).1,
            CellResult.initErr .AlreadyInitialized ::
              (cellRun (⟨some v, true⟩ : CellState α) ops).2) := rfl
      rw [hstep, ih]
      rfl
    | getOp =>
      have hstep : cellRun (⟨some v, true⟩ : CellState α) (CellOp.getOp :: ops) =
          ((cellRun (⟨some v, true⟩ : CellState α) ops).1,
            CellResult.getOk v :: (cellRun (⟨some v, true⟩ : CellState α) ops).2) := rfl
      rw [hstep, ih]
      rfl

theorem atomicRun_published {α : Type} (v : α) (ops : List (CellOp α)) :
    atomicRun (some v) ops = (some v, atomicPublishedResults v ops) := by
  induction ops with
  | nil => rfl
  | cons op ops ih =>
    cases op with
    | initOp w =>
      have hstep : atomicRun (some v) (CellOp.initOp w :: ops) =
          ((atomicRun (some v) ops).1,
            AtomicResult.initErr :: (atomicRun (some v) ops).2) := rfl
      rw [hstep, ih]
      rfl
    | getOp =>
      have hstep : atomicRun (some v) (CellOp.getOp :: ops) =
          ((atomicRun (some v) ops).1,
            AtomicResult.got (some v) :: (atomicRun (some v) ops).2) := rfl
      rw [hstep, ih]
      rfl

theorem cellRun_dead {α : Type} (ops : List (CellOp α)) :
    cellRun (⟨none, true⟩ : CellState α) ops = (⟨none, true⟩, deadResults ops) := by
  induction ops with
  | nil => rfl
  | cons op ops ih =>
    cases op with
    | initOp w =>
      have hstep : cellRun (⟨none, true⟩ : CellState α) (CellOp.initOp w :: ops) =
          ((cellRun (⟨none, true⟩ : CellState α) ops).1,
            CellResult.initErr .AccessedBeforeInitialization ::
              (cellRun (⟨none, true⟩ : CellState α) ops).2) := rfl
      rw [hstep, ih]
      rfl
    | getOp =>
      have hstep : cellRun (⟨none, true⟩ : CellState α) (CellOp.getOp :: ops) =
          ((cellRun (⟨none, true⟩ : CellState α) ops).1,
            CellResult.getErr .AccessedBeforeInitialization ::
              (cellRun (⟨none, true⟩ : CellState α) ops).2) := rfl
      rw [hstep, ih]
      rfl

/-- Claim C6: for both static initializer cells, once initialize has succeeded
with value v the published value is never mutated or withdrawn: every
subsequent get returns that same v and every subsequent initialize fails
without changing the stored value. -/
theorem cells_publish_once_immutable {α : Type} (v : α)
    (s s' : CellState α) (h1 : cellInitialize s v = (s', none))
    (t t' : Option α) (h2 : atomicStep t (.initOp v) = (t', .initOk))
    (ops ops2 : List (CellOp α)) :
    cellRun s' ops = (s', publishedResults v ops) ∧
    atomicRun t' ops2 = (t', atomicPublishedResults v ops2) := by
  have hs : s' = ⟨some v, true⟩ := by
    simp only [cellInitialize] at h1
    split at h1
    · split at h1 <;> simp_all
    · exact (congrArg Prod.fst h1).symm
  have ht : t' = some v := by
    cases t with
    | none =>
      simp only [atomicStep] at h2
      exact (congrArg Prod.fst h2).symm
    | some w =>
      simp only [atomicStep] at h2
      have := congrArg Prod.snd h2
      simp at this
  subst hs
  subst ht
  exact ⟨cellRun_published v ops, atomicRun_published v ops2⟩

/-- Witness for C6: a fresh blocking cell and a fresh atomic cell publish 3;
a later get and a later initialize behave as stated. -/
theorem cells_publish_once_immutable_witness :
    cellRun (⟨some 3, true⟩ : CellState Nat) [CellOp.getOp, CellOp.initOp 7] =
      (⟨some 3, true⟩, publishedResults 3 [CellOp.getOp, CellOp.initOp 7]) ∧
    atomicRun (some 3) [CellOp.getOp, CellOp.initOp 7] =
      (some 3, atomicPublishedResults 3 [CellOp.getOp, CellOp.initOp 7]) :=
  cells_publish_once_immutable 3 (cellNew Nat) ⟨some 3, true⟩ rfl none (some 3) rfl
    [CellOp.getOp, CellOp.initOp 7] [CellOp.getOp, CellOp.initOp 7]

/-- Claim C9: a get on a fresh StaticInitCell before any initialize consumes the
Once without storing a value and reports AccessedBeforeInitialization; the
cell is then permanently dead: every later get and every later initialize,
in any order, returns AccessedBeforeInitialization, and the cell never holds
a value. -/
theorem staticInitCell_get_before_initialize_dead {α : Type} (ops : List (CellOp α)) :
    cellStep (cellNew α) .getOp =
      (⟨none, true⟩, .getErr .AccessedBeforeInitialization) ∧
    cellRun (⟨none, true⟩ : CellState α) ops = (⟨none, true⟩, deadResults ops) :=
  ⟨rfl, cellRun_dead ops⟩

/-- Witness for C9 at a concrete later operation sequence. -/
theorem staticInitCell_get_before_initialize_dead_witness :
    cellStep (cellNew Nat) .getOp =
      (⟨none, true⟩, .getErr .AccessedBeforeInitialization) ∧
    cellRun (⟨none, true⟩ : CellState Nat) [CellOp.initOp 5, CellOp.getOp] =
      (⟨none, true⟩, deadResults [CellOp.initOp 5, CellOp.getOp]) :=
  staticInitCell_get_before_initialize_dead [CellOp.initOp 5, CellOp.getOp]

/-- Claim C2, the code evaluated at the failing input: the first initialize
of a fresh static hook succeeds; a second initialize returns the error value
Err(Error::AlreadyCreated) and does not panic, both on the engine path and
on the cell path. -/
theorem staticHook_second_initialize_returns_error :
    staticHookInitialize 0 (staticHookNew Nat) =
      ((⟨⟨some 0, true⟩, true⟩ : StaticHookState Nat), .ok) ∧
    staticHookInitialize 1 (⟨⟨some 0, true⟩, true⟩ : StaticHookState Nat) =
      ((⟨⟨some 0, true⟩, true⟩ : StaticHookState Nat), .err .AlreadyCreated) ∧
    staticHookInitialize 1 (⟨⟨some 0, true⟩, false⟩ : StaticHookState Nat) =
      ((⟨⟨some 0, true⟩, true⟩ : StaticHookState Nat), .err .AlreadyCreated) ∧
    (staticHookInitialize 1 (⟨⟨some 0, true⟩, true⟩ : StaticHookState Nat)).2 ≠
      InitializeOutcome.panicked := by
  decide

theorem hookQueueApplyRun_panics_aux (resp : Nat → Nat × Bool → Option Error)
    (finalStatus : Option Error) (q : List (Nat × Bool)) (i : Nat)
    (h : ∃ k entry, q.get? k = some entry ∧ resp (i + k) entry ≠ none) :
    hookQueueApplyRun resp finalStatus i q = .panicked := by
  induction q generalizing i with
  | nil =>
    obtain ⟨k, entry, hk, _⟩ := h
    simp at hk
  | cons e rest ih =>
    obtain ⟨k, entry, hk, hf⟩ := h
    cases hresp : resp i e with
    | some err =>
      show (match resp i e with
        | some _ => ApplyOutcome.panicked
        | none => hookQueueApplyRun resp finalStatus (i + 1) rest) = .panicked
      rw [hresp]
    | none =>
      have hrec : hookQueueApplyRun resp finalStatus i (e :: rest) =
          hookQueueApplyRun resp finalStatus (i + 1) rest := by
        show (match resp i e with
          | some _ => ApplyOutcome.panicked
          | none => hookQueueApplyRun resp finalStatus (i + 1) rest) = _
        rw [hresp]
      rw [hrec]
      apply ih
      cases k with
      | zero =>
        simp at hk
        rw [Nat.add_zero] at hf
        rw [hk] at hresp
        exact absurd hresp hf
      | succ k' =>
        refine ⟨k', entry, by simpa using hk, ?_⟩
        have harith : i + (k' + 1) = i + 1 + k' := by omega
        rw [harith] at hf
        exact hf

/-- Claim C4: if any per-entry engine call issued during HookQueue::apply fails,
apply panics instead of returning a partial result or an error value, for
every queue and every position of the failing entry. -/
theorem hookQueueApply_panics_on_entry_failure (resp : Nat → Nat × Bool → Option Error)
    (finalStatus : Option Error) (q : List (Nat × Bool))
    (h : ∃ k entry, q.get? k = some entry ∧ resp k entry ≠ none) :
    hookQueueApplyRun resp finalStatus 0 q = .panicked := by
  apply hookQueueApplyRun_panics_aux
  obtain ⟨k, entry, hk, hf⟩ := h
  exact ⟨k, entry, hk, by simpa using hf⟩

/-- Witness for C4: a one-entry queue whose queue-enable call reports
MH_ERROR_NOT_CREATED makes apply panic. -/
theorem hookQueueApply_panics_on_entry_failure_witness :
    hookQueueApplyRun (fun _ _ => some Error.NotCreated) none 0 [(1, true)] = .panicked :=
  hookQueueApply_panics_on_entry_failure _ none _ ⟨0, (1, true), rfl, by decide⟩

/-- Claim C7: when a guarded detour panics, the panic never propagates past the
boundary: the handler (registered or default) is invoked exactly once with
the hook's full name and the panic payload, the panic never surfaces as a
returned value, and the handling routine aborts the process even when a
custom handler returns normally or panics itself. -/
theorem guardedDetour_panic_contained {A P R : Type} (closure : A → Except P R)
    (registered : Option (PanicInfo P → HandlerBehavior)) (path name : String)
    (args : A) (payload : P) (h : closure args = .error payload) :
    guardedDetour closure registered path name args =
      .aborted (handleDetourPanic registered path name payload) ∧
    (handleDetourPanic registered path name payload).aborted = true ∧
    (handleDetourPanic registered path name payload).customCalls.length +
      (handleDetourPanic registered path name payload).defaultCalls.length = 1 ∧
    (∀ info ∈ (handleDetourPanic registered path name payload).customCalls,
      info = ⟨payload, path ++ "::" ++ name⟩) ∧
    (∀ info ∈ (handleDetourPanic registered path name payload).defaultCalls,
      info = ⟨payload, path ++ "::" ++ name⟩) ∧
    (registered = none →
      (handleDetourPanic registered path name payload).defaultCalls =
        [⟨payload, path ++ "::" ++ name⟩]) := by
  refine ⟨?_, ?_, ?_, ?_, ?_, ?_⟩
  · show (match closure args with
      | .ok r => DetourOutcome.returned r
      | .error payload => DetourOutcome.aborted
          (handleDetourPanic registered path name payload)) = _
    rw [h]
  all_goals
    cases registered with
    | none => simp [handleDetourPanic]
    | some hf =>
      cases hb : hf ⟨payload, path ++ "::" ++ name⟩ <;>
        simp [handleDetourPanic, hb]

/-- Witness for C7: a detour closure that panics with payload 7 under no
registered handler aborts after one default-handler invocation. -/
theorem guardedDetour_panic_contained_witness :
    guardedDetour (fun _ : Nat => (Except.error 7 : Except Nat Nat)) none
        witnessPath witnessName 0 =
      .aborted (handleDetourPanic none witnessPath witnessName 7) ∧
    (handleDetourPanic none witnessPath witnessName 7).aborted = true ∧
    (handleDetourPanic none witnessPath witnessName 7).customCalls.length +
      (handleDetourPanic none witnessPath witnessName 7).defaultCalls.length = 1 ∧
    (∀ info ∈ (handleDetourPanic none witnessPath witnessName 7).customCalls,
      info = ⟨7, witnessPath ++ "::" ++ witnessName⟩) ∧
    (∀ info ∈ (handleDetourPanic none witnessPath witnessName 7).defaultCalls,
      info = ⟨7, witnessPath ++ "::" ++ witnessName⟩) ∧
    ((none : Option (PanicInfo Nat → HandlerBehavior)) = none →
      (handleDetourPanic none witnessPath witnessName 7).defaultCalls =
        [⟨7, witnessPath ++ "::" ++ witnessName⟩]) :=
  guardedDetour_panic_contained _ none witnessPath witnessName 0 7 rfl

/-- Claim C10: HookQueue::apply neither consumes nor clears the queue: the queue
after apply holds exactly the entries it held before, a second apply issues
exactly the same per-entry calls, and later enable or disable calls append
to the existing entries. -/
theorem hookQueue_apply_preserves_entries (q : HookQueueObj) (e e2 : Engine)
    (t1 t2 : Nat) :
    (hqApply q e).1 = q ∧
    (hqApply q e).2.1 = q.entries ∧
    (hqApply (hqApply q e).1 e2).2.1 = q.entries ∧
    hqEnable (hqApply q e).1 t1 = ⟨q.entries ++ [(t1, true)]⟩ ∧
    hqDisable (hqApply q e).1 t2 = ⟨q.entries ++ [(t2, false)]⟩ :=
  ⟨rfl, rfl, rfl, rfl, rfl⟩

/-- Witness for C10 at a concrete one-entry queue. -/
theorem hookQueue_apply_preserves_entries_witness :
    (hqApply ⟨[(1, true)]⟩ engineZero).1 = (⟨[(1, true)]⟩ : HookQueueObj) ∧
    (hqApply ⟨[(1, true)]⟩ engineZero).2.1 = [(1, true)] ∧
    (hqApply (hqApply ⟨[(1, true)]⟩ engineZero).1 engineZero).2.1 = [(1, true)] ∧
    hqEnable (hqApply ⟨[(1, true)]⟩ engineZero).1 2 = ⟨[(1, true)] ++ [(2, true)]⟩ ∧
    hqDisable (hqApply ⟨[(1, true)]⟩ engineZero).1 3 = ⟨[(1, true)] ++ [(3, false)]⟩ :=
  hookQueue_apply_preserves_entries ⟨[(1, true)]⟩ engineZero engineZero 2 3

theorem lastWrite_append_single (xs : List (Nat × Bool)) (p : Nat × Bool) (a : Nat) :
    lastWrite (xs ++ [p]) a = if p.1 = a then some p.2 else lastWrite xs a := by
  induction xs with
  | nil =>
    show (match lastWrite ([] : List (Nat × Bool)) a with
      | some v => some v
      | none => if p.1 = a then some p.2 else none) = _
    by_cases h : p.1 = a <;> simp [lastWrite, h]
  | cons x xs ih =>
    have hL : lastWrite ((x :: xs) ++ [p]) a =
        (match lastWrite (xs ++ [p]) a with
          | some v => some v
          | none => if x.1 = a then some x.2 else none) := rfl
    have hR : lastWrite (x :: xs) a =
        (match lastWrite xs a with
          | some v => some v
          | none => if x.1 = a then some x.2 else none) := rfl
    rw [hL, ih, hR]
    by_cases h : p.1 = a
    · simp only [if_pos h]
    · simp only [if_neg h]

theorem sysInv_init (n : Nat) (e0 : Nat → Bool) (qs : Fin n → List (Nat × Bool)) :
    SysInv qs (initSys n e0) := by
  refine ⟨?_, ?_, ?_, ?_, ?_⟩
  · intro t i h
    simp [initSys] at h
  · intro t h
    simp [initSys] at h
  · intro _ a
    rfl
  · intro t i h
    simp [initSys] at h
  · intro t h
    simp [initSys] at h

theorem sysInv_step {n : Nat} {qs : Fin n → List (Nat × Bool)} {s s' : SysState n}
    (hinv : SysInv qs s) (hstep : SysStep qs s s') : SysInv qs s' := by
  cases hstep with
  | acquire t s hidle hfree =>
    refine ⟨?_, ?_, ?_, ?_, ?_⟩
    · intro t' i h
      have h2 : Function.update s.phase t (Phase.marking 0) t' = Phase.marking i := h
      show some t = some t'
      by_cases ht : t' = t
      · rw [ht]
      · rw [Function.update_noteq ht] at h2
        have h3 := hinv.marking_owner t' i h2
        rw [hfree] at h3
        simp at h3
    · intro t' h
      show some t = some t'
      by_cases ht : t' = t
      · rw [ht]
      · have h2 : Function.update s.phase t (Phase.marking 0) t' = Phase.releasing := h
        rw [Function.update_noteq ht] at h2
        have h3 := hinv.releasing_owner t' h2
        rw [hfree] at h3
        simp at h3
    · intro hn
      have h2 : (some t : Option (Fin n)) = none := hn
      simp at h2
    · intro t' i h a
      have h2 : Function.update s.phase t (Phase.marking 0) t' = Phase.marking i := h
      show s.engine.pending a = lastWrite ((qs t').take i) a
      by_cases ht : t' = t
      · subst ht
        rw [Function.update_same] at h2
        injection h2 with hi
        subst hi
        rw [hinv.pending_free hfree a]
        rfl
      · rw [Function.update_noteq ht] at h2
        have h3 := hinv.marking_owner t' i h2
        rw [hfree] at h3
        simp at h3
    · intro t' h a
      show s.engine.pending a = none
      exact hinv.pending_free hfree a
  | mark t s i entry hph hent =>
    have howner : s.lockOwner = some t := hinv.marking_owner t i hph
    refine ⟨?_, ?_, ?_, ?_, ?_⟩
    · intro t' j h
      have h2 : Function.update s.phase t (Phase.marking (i + 1)) t' = Phase.marking j := h
      show s.lockOwner = some t'
      by_cases ht : t' = t
      · subst ht
        exact howner
      · rw [Function.update_noteq ht] at h2
        exact hinv.marking_owner t' j h2
    · intro t' h
      have h2 : Function.update s.phase t (Phase.marking (i + 1)) t' = Phase.releasing := h
      show s.lockOwner = some t'
      by_cases ht : t' = t
      · subst ht
        rw [Function.update_same] at h2
        simp at h2
      · rw [Function.update_noteq ht] at h2
        exact hinv.releasing_owner t' h2
    · intro hn
      have h2 : s.lockOwner = none := hn
      rw [howner] at h2
      simp at h2
    · intro t' j h a
      have h2 : Function.update s.phase t (Phase.marking (i + 1)) t' = Phase.marking j := h
      by_cases ht : t' = t
      · subst ht
        rw [Function.update_same] at h2
        injection h2 with hj
        subst hj
        have hent2 : (qs t')[i]? = some entry := by
          rw [← List.get?_eq_getElem?]
          exact hent
        have htake : (qs t').take (i + 1) = (qs t').take i ++ [entry] := by
          rw [List.take_succ, hent2]
          rfl
        show (queueMark s.engine entry.1 entry.2).pending a =
          lastWrite ((qs t').take (i + 1)) a
        rw [htake, lastWrite_append_single]
        show (if a = entry.1 then some entry.2 else s.engine.pending a) = _
        rw [hinv.pending_marking t' i hph a]
        by_cases ha : a = entry.1
        · rw [if_pos ha, if_pos ha.symm]
        · have ha' : ¬(entry.1 = a) := fun hc => ha hc.symm
          rw [if_neg ha, if_neg ha']
      · rw [Function.update_noteq ht] at h2
        have h3 := hinv.marking_owner t' j h2
        rw [howner] at h3
        injection h3 with h4
        exact absurd h4.symm ht
    · intro t' h
      have h2 : Function.update s.phase t (Phase.marking (i + 1)) t' = Phase.releasing := h
      by_cases ht : t' = t
      · subst ht
        rw [Function.update_same] at h2
        simp at h2
      · rw [Function.update_noteq ht] at h2
        have h3 := hinv.releasing_owner t' h2
        rw [howner] at h3
        injection h3 with h4
        exact absurd h4.symm ht
  | commit t s hph =>
    have howner : s.lockOwner = some t := hinv.marking_owner t ((qs t).length) hph
    refine ⟨?_, ?_, ?_, ?_, ?_⟩
    · intro t' j h
      have h2 : Function.update s.phase t Phase.releasing t' = Phase.marking j := h
      show s.lockOwner = some t'
      by_cases ht : t' = t
      · subst ht
        rw [Function.update_same] at h2
        simp at h2
      · rw [Function.update_noteq ht] at h2
        exact hinv.marking_owner t' j h2
    · intro t' h
      show s.lockOwner = some t'
      by_cases ht : t' = t
      · subst ht
        exact howner
      · have h2 : Function.update s.phase t Phase.releasing t' = Phase.releasing := h
        rw [Function.update_noteq ht] at h2
        exact hinv.releasing_owner t' h2
    · intro hn
      have h2 : s.lockOwner = none := hn
      rw [howner] at h2
      simp at h2
    · intro t' j h a
      have h2 : Function.update s.phase t Phase.releasing t' = Phase.marking j := h
      by_cases ht : t' = t
      · subst ht
        rw [Function.update_same] at h2
        simp at h2
      · rw [Function.update_noteq ht] at h2
        have h3 := hinv.marking_owner t' j h2
        rw [howner] at h3
        injection h3 with h4
        exact absurd h4.symm ht
    · intro t' h a
      show (applyQueued s.engine).pending a = none
      rfl
  | release t s hph =>
    have howner : s.lockOwner = some t := hinv.releasing_owner t hph
    have hpend := hinv.pending_releasing t hph
    refine ⟨?_, ?_, ?_, ?_, ?_⟩
    · intro t' j h
      have h2 : Function.update s.phase t Phase.finished t' = Phase.marking j := h
      by_cases ht : t' = t
      · subst ht
        rw [Function.update_same] at h2
        simp at h2
      · rw [Function.update_noteq ht] at h2
        have h3 := hinv.marking_owner t' j h2
        rw [howner] at h3
        injection h3 with h4
        exact absurd h4.symm ht
    · intro t' h
      have h2 : Function.update s.phase t Phase.finished t' = Phase.releasing := h
      by_cases ht : t' = t
      · subst ht
        rw [Function.update_same] at h2
        simp at h2
      · rw [Function.update_noteq ht] at h2
        have h3 := hinv.releasing_owner t' h2
        rw [howner] at h3
        injection h3 with h4
        exact absurd h4.symm ht
    · intro _ a
      exact hpend a
    · intro t' j h a
      have h2 : Function.update s.phase t Phase.finished t' = Phase.marking j := h
      by_cases ht : t' = t
      · subst ht
        rw [Function.update_same] at h2
        simp at h2
      · rw [Function.update_noteq ht] at h2
        have h3 := hinv.marking_owner t' j h2
        rw [howner] at h3
        injection h3 with h4
        exact absurd h4.symm ht
    · intro t' h a
      have h2 : Function.update s.phase t Phase.finished t' = Phase.releasing := h
      by_cases ht : t' = t
      · subst ht
        rw [Function.update_same] at h2
        simp at h2
      · rw [Function.update_noteq ht] at h2
        have h3 := hinv.releasing_owner t' h2
        rw [howner] at h3
        injection h3 with h4
        exact absurd h4.symm ht

theorem sysInv_reach {n : Nat} {qs : Fin n → List (Nat × Bool)} {e0 : Nat → Bool}
    {s : SysState n} (h : Reach qs (initSys n e0) s) : SysInv qs s := by
  induction h with
  | refl => exact sysInv_init n e0 qs
  | tail _ hstep ih => exact sysInv_step ih hstep

theorem sysStep_enabled_change {n : Nat} {qs : Fin n → List (Nat × Bool)}
    {s s' : SysState n} (hinv : SysInv qs s) (hstep : SysStep qs s s') :
    s'.engine.enabled = s.engine.enabled ∨
      ∃ t, s'.engine.enabled = batchApply (qs t) s.engine.enabled := by
  cases hstep with
  | acquire t s hidle hfree => exact Or.inl rfl
  | mark t s i entry hph hent => exact Or.inl rfl
  | release t s hph => exact Or.inl rfl
  | commit t s hph =>
    refine Or.inr ⟨t, funext fun a => ?_⟩
    show (s.engine.pending a).getD (s.engine.enabled a) =
      batchApply (qs t) s.engine.enabled a
    rw [hinv.pending_marking t ((qs t).length) hph a, List.take_length]
    rfl

/-- Claim C8: all entries of one HookQueue::apply are committed as a single atomic
unit under the process-wide lock: in any interleaving of apply runs, every
transition of the engine's enabled map either leaves it unchanged or commits
exactly one thread's entire batch at once, so no reachable state shows some
but not all of a queue's changes. -/
theorem hookQueue_apply_atomic_commit {n : Nat} (qs : Fin n → List (Nat × Bool))
    (e0 : Nat → Bool) (s s' : SysState n)
    (hreach : Reach qs (initSys n e0) s) (hstep : SysStep qs s s') :
    s'.engine.enabled = s.engine.enabled ∨
      ∃ t, s'.engine.enabled = batchApply (qs t) s.engine.enabled :=
  sysStep_enabled_change (sysInv_reach hreach) hstep

/-- Witness for C8: one thread, one-entry queue, taking the first step (lock
acquisition) from the initial state. -/
theorem hookQueue_apply_atomic_commit_witness :
    ({ initSys 1 e0W with
        phase := Function.update (initSys 1 e0W).phase t0W (Phase.marking 0),
        lockOwner := some t0W } : SysState 1).engine.enabled =
      (initSys 1 e0W).engine.enabled ∨
    ∃ t, ({ initSys 1 e0W with
        phase := Function.update (initSys 1 e0W).phase t0W (Phase.marking 0),
        lockOwner := some t0W } : SysState 1).engine.enabled =
      batchApply (qsW t) (initSys 1 e0W).engine.enabled :=
  hookQueue_apply_atomic_commit qsW e0W (initSys 1 e0W) _
    (Reach.refl _) (SysStep.acquire t0W (initSys 1 e0W) rfl rfl)

end Minhook
